import Mathlib

/-!
# furl.js: redirect resolver and cache cleaner

A shallow embedding of `furl.js`: the global `CACHE`, `STATS` and
`CLEANER_RUNNING` variables become an explicit `State`; `resolveURL`,
`sendResult`, `cacheCleaner` and `getStats` become functions on that state.

What the environment decides is passed in explicitly:
* Node's `url.parse` is a parameter `parse`;
* the outcome of one HEAD probe is given by a `Transport` (within one top-level
  call a URL is probed at most once, because a repeated URL is caught by the
  cycle check before any probe);
* `new Date().getTime()` readings are parameters;
* `process.memoryUsage()` readings are functions of the reading's index.

The completion handler is the caller's code: its invocations are recorded in
the `events` of the result, the probes issued in `probes`. A handler argument
that is JavaScript's `undefined` is `none`.

`CACHE` is a plain object (line 38), so the expression `CACHE[urlin]` of line 105
also finds what every object inherits from `Object.prototype`; `Cache.read`
models that expression, `Cache.get` the own properties. The built-in objects
themselves are not part of `State`: they are taken as Node creates them, and the
one assignment the program makes on them (line 108, on a hit that is not an own
property) is recorded in the `inheritedWrite` of the result.
-/

namespace Furl

/-! ## Configuration -/

/-- Source line 26: `var DEBUG = true`. -/
def DEBUG : Bool := true

/-- Source line 32: `var MAX_HOPS = 10`. -/
def MAX_HOPS : Nat := 10

/-- Source line 47: `var MAX_CACHE_AGE = 86400 * 7 * 1000`. -/
def MAX_CACHE_AGE : Int := 86400 * 7 * 1000

/-- Source line 52: `var CACHE_AGE_RAMPUP = 86400 * 1000`. -/
def CACHE_AGE_RAMPUP : Int := 86400 * 1000

/-- Source line 55: `var MAX_MEMORY_USAGE = 1024 * 1024 * 64`. -/
def MAX_MEMORY_USAGE : Nat := 1024 * 1024 * 64

/-- The value of the source expression `0.9 * MAX_CACHE_AGE` (line 241). The
double nearest to 0.9 exceeds 0.9 by less than 2.3e-17, so the real product
exceeds 544320000 by less than 1.4e-8, which is below half the spacing of
doubles at that magnitude (2^-24 < 6e-8 is half of 2^-23): the IEEE product is
the integer 544320000 exactly, which is `9 * MAX_CACHE_AGE / 10`. -/
def ERROR_BACKDATE : Int := 9 * MAX_CACHE_AGE / 10

/-! ## Data model -/

/-- One cache record, `{ 'lastaccess': .., 'code': .., 'text': .. }` (line 247). -/
structure Record where
  lastaccess : Int
  code : Nat
  text : String
deriving DecidableEq, Repr

/-- The `CACHE` object: string keys in insertion order, each with its record. -/
abbrev Cache := List (String × Record)

/-- Read the own property `k` of `CACHE`: the record stored under the key, if
any. What the object inherits is not looked at (see `Cache.read`). -/
def Cache.get (c : Cache) (k : String) : Option Record :=
  match c with
  | [] => none
  | (k', r) :: rest => if k' = k then some r else Cache.get rest k

/-- Assign `CACHE[k] = r`: an existing key keeps its place, a new key is added
at the end. The program assigns only under the URLs of a trail (line 247), which
all missed on line 105 and so are not names inherited from `Object.prototype`. -/
def Cache.put (c : Cache) (k : String) (r : Record) : Cache :=
  match c with
  | [] => [(k, r)]
  | (k', r') :: rest => if k' = k then (k, r) :: rest else (k', r') :: Cache.put rest k r

/-- Remove a key, `delete CACHE[k]`. -/
def Cache.delete (c : Cache) (k : String) : Cache :=
  c.filter (fun e => decide (e.1 ≠ k))

/-- The keys of the object, as `for (var key in CACHE)` and `Object.keys`
enumerate them. -/
def Cache.keys (c : Cache) : List String := c.map Prod.fst

/-- The property names that a plain object inherits from `Object.prototype` in
Node's V8: the methods of ECMAScript 5 section 15.2.4, the accessor helpers of
V8, and `__proto__`. Each of them holds a function or, for `__proto__`, the
prototype object, all truthy; none of them has a `code` or a `text` property. -/
def inheritedNames : List String :=
  ["constructor", "toString", "toLocaleString", "valueOf", "hasOwnProperty",
   "isPrototypeOf", "propertyIsEnumerable", "__defineGetter__", "__defineSetter__",
   "__lookupGetter__", "__lookupSetter__", "__proto__"]

/-- The value of the expression `CACHE[k]`: a stored record, a value inherited
from `Object.prototype`, or `undefined`. -/
inductive Slot where
  | own (r : Record)
  | inherited
  | absent
deriving DecidableEq, Repr

/-- Evaluate `CACHE[k]` as line 105 does: the own property when there is one,
else the inherited value when `k` names one, else `undefined`. -/
def Cache.read (c : Cache) (k : String) : Slot :=
  match Cache.get c k with
  | some r => Slot.own r
  | none => if k ∈ inheritedNames then Slot.inherited else Slot.absent

/-- The `STATS.cache` object. The `memory` field is a floating point percentage
in the source; its value is taken from the environment. -/
structure CacheStats where
  hits : Nat
  misses : Nat
  size : Nat
  memory : Int
deriving DecidableEq, Repr

/-- The `STATS.responses` object. -/
structure ResponseStats where
  successful : Nat
  failures : Nat
  last : Int
deriving DecidableEq, Repr

/-- The `STATS.cleaner` object. -/
structure CleanerStats where
  runs : Nat
  cleaned : Nat
  last : Int
  lastduration : Int
deriving DecidableEq, Repr

/-- The `STATS` object (lines 77-96). -/
structure Stats where
  cache : CacheStats
  responses : ResponseStats
  total_hops : Nat
  cleaner : CleanerStats
deriving DecidableEq, Repr

/-- The mutable globals of the process. -/
structure State where
  CACHE : Cache
  STATS : Stats
  CLEANER_RUNNING : Bool
deriving DecidableEq, Repr

/-- The fields of a `url.parse` result that `resolveURL` reads before the
probe. A missing field is `none`. -/
structure Uri where
  protocol : Option String
  hostname : Option String
deriving DecidableEq, Repr

/-- JavaScript truthiness of a string-or-missing value: missing and the empty
string are falsy. -/
def truthy (v : Option String) : Bool :=
  match v with
  | none => false
  | some s => decide (s ≠ "")

/-- What happens to one HEAD probe: a response with its status code and
`Location` header, an `error` event with its message, or the timeout timer
firing. -/
inductive Outcome where
  | response (statusCode : Nat) (location : Option String)
  | error (message : String)
  | mytimeout
deriving DecidableEq, Repr

/-- The outcome of the probe of each URL. -/
abbrev Transport := String → Outcome

/-- The result of a `resolveURL` call: the globals afterwards, the invocations
of the completion handler in order with their two arguments (`none` for
`undefined`), the URLs probed in order, and, when line 108 assigned `lastaccess`
on a value inherited from `Object.prototype`, the property name and the time
assigned. -/
structure Resolution where
  state : State
  events : List (Option Nat × Option String)
  probes : List String
  inheritedWrite : Option (String × Int)
deriving DecidableEq, Repr

/-! ## resolveURL and sendResult -/

/-- The loop of `sendResult` (lines 245-248): one record per URL of the trail. -/
def storeTrail (c : Cache) (trail : List String) (r : Record) : Cache :=
  trail.foldl (fun acc u => Cache.put acc u r) c

/-- Source `sendResult(code, text, callback, trail)` (lines 230-249) with the
clock reading `now`: the handler is called, then the outcome is stored under
every URL of the trail, back-dated when the code is not 200. -/
def sendResult (now : Int) (code : Nat) (text : String) (trail : List String)
    (st : State) : Resolution :=
  let stamp : Int := if code ≠ 200 then now - ERROR_BACKDATE else now
  { state := { st with CACHE := storeTrail st.CACHE trail ⟨stamp, code, text⟩ }
    events := [(some code, some text)]
    probes := []
    inheritedWrite := none }

/-- The text of the cycle error (lines 124-125). -/
def circularText (n : Nat) (urlin : String) : String :=
  "ERR Circular reference found after " ++ toString n ++ " hop" ++
    (if n = 1 then "" else "s") ++ ", pointing back to " ++ urlin

/-- The `error` handler's test `e.message.indexOf('ETIMEDOUT') != 0` (line 221):
true unless the message starts with `ETIMEDOUT`. -/
def notTimeoutError (message : String) : Bool :=
  !("ETIMEDOUT".data.isPrefixOf message.data)

/-- Add one to `STATS.cache.hits`. -/
def bumpHits (s : Stats) : Stats :=
  { s with cache := { s.cache with hits := s.cache.hits + 1 } }

/-- Add one to `STATS.cache.misses`. -/
def bumpMisses (s : Stats) : Stats :=
  { s with cache := { s.cache with misses := s.cache.misses + 1 } }

/-- Add one to `STATS.total_hops`. -/
def bumpHops (s : Stats) : Stats :=
  { s with total_hops := s.total_hops + 1 }

/-- Source `resolveURL(urlin, callback, trail, lasturl)` (lines 102-227). The
first argument bounds the depth of the recursion through the `response`
handler; `none` means the bound was too small. `now` is the one clock reading
of the call (taken on the cache hit or in `sendResult`). -/
def resolveURLAux (parse : String → Uri) (tr : Transport) (now : Int) :
    Nat → State → String → List String → Option String → Option Resolution
  | 0, _, _, _, _ => none
  | fuel + 1, st, urlin, trail, _lasturl =>
    match Cache.read st.CACHE urlin with
    | Slot.own rec =>
      -- cache hit: count it, refresh lastaccess, answer from the record
      some { state := { st with
                          STATS := bumpHits st.STATS
                          CACHE := Cache.put st.CACHE urlin { rec with lastaccess := now } }
             events := [(some rec.code, some rec.text)]
             probes := []
             inheritedWrite := none }
    | Slot.inherited =>
      -- truthy inherited value: counted as a hit; `lastaccess` is assigned on
      -- that value, whose `code` and `text` are undefined
      some { state := { st with STATS := bumpHits st.STATS }
             events := [(none, none)]
             probes := []
             inheritedWrite := some (urlin, now) }
    | Slot.absent =>
      let st1 : State := { st with STATS := bumpMisses st.STATS }
      if urlin ∈ trail then
        some (sendResult now 400 (circularText trail.length urlin) trail st1)
      else
        let trail1 := trail ++ [urlin]
        if MAX_HOPS ≤ trail1.length then
          some (sendResult now 400 "ERR Too many hops" trail1 st1)
        else
          let uri := parse urlin
          if !truthy uri.protocol ||
              (uri.protocol != some "http:" && uri.protocol != some "https:") then
            some (sendResult now 400 ("ERR Invalid protocol: " ++ urlin) trail1 st1)
          else if !truthy uri.hostname then
            some (sendResult now 400 "ERR Invalid URL: Missing hostname" trail1 st1)
          else
            let st2 : State := { st1 with STATS := bumpHops st1.STATS }
            let probed (r : Resolution) : Resolution := { r with probes := urlin :: r.probes }
            match tr urlin with
            | Outcome.mytimeout =>
              some (probed (sendResult now 500 ("ERR Request to " ++ urlin ++ " timed out")
                trail1 st2))
            | Outcome.response statusCode location =>
              if statusCode = 301 ∨ statusCode = 302 then
                match location with
                | some loc =>
                  if loc ≠ "" then
                    (resolveURLAux parse tr now fuel st2 loc trail1 (some urlin)).map probed
                  else
                    some (probed (sendResult now 500
                      ("ERR " ++ toString statusCode ++ " response without a location header")
                      trail1 st2))
                | none =>
                  some (probed (sendResult now 500
                    ("ERR " ++ toString statusCode ++ " response without a location header")
                    trail1 st2))
              else if statusCode ≠ 200 then
                some (probed (sendResult now statusCode urlin trail1 st2))
              else
                some (probed (sendResult now 200 urlin trail1 st2))
            | Outcome.error message =>
              -- the timer is cleared first, so nothing else will report
              if notTimeoutError message then
                some (probed (sendResult now 500 ("ERR " ++ message ++ " for " ++ urlin)
                  trail1 st2))
              else
                some (probed { state := st2, events := [], probes := [],
                               inheritedWrite := none })

/-- A top-level call `resolveURL(urlin, callback)`: no trail, no previous URL. -/
def resolveURL (parse : String → Uri) (tr : Transport) (now : Int) (st : State)
    (urlin : String) : Option Resolution :=
  resolveURLAux parse tr now MAX_HOPS st urlin [] none

/-! ## getStats and cacheCleaner -/

/-- What the environment supplies to one `cacheCleaner` call: the three clock
readings (lines 261, 266 and 306), the `process.memoryUsage().rss` reading of
the loop condition after scan number `j` (counted from 0), and the percentage
that `getStats` computes on its `j`-th call (counted from 0). -/
structure CleanerEnv where
  tLast : Int
  tCutoff : Int
  tEnd : Int
  rss : Nat → Nat
  memory : Nat → Int

/-- Source `getStats()` (lines 318-324): recompute `STATS.cache.size` and
`STATS.cache.memory`; `mem` is the rounded percentage the source computes in
floating point. -/
def getStats (mem : Int) (st : State) : State :=
  { st with STATS := { st.STATS with
      cache := { st.STATS.cache with size := (Cache.keys st.CACHE).length, memory := mem } } }

/-- The test `CACHE[key] && CACHE[key].lastaccess < cutoff` of lines 277 and 288.
An inherited value is truthy but has no `lastaccess`, and `undefined < cutoff`
is false. -/
def isStale (cutoff : Int) (c : Cache) (key : String) : Bool :=
  match Cache.read c key with
  | Slot.own r => decide (r.lastaccess < cutoff)
  | Slot.inherited => false
  | Slot.absent => false

/-- The first pass of a scan (lines 274-281): the keys whose record is older
than the cutoff. -/
def staleKeys (cutoff : Int) (c : Cache) : List String :=
  (Cache.keys c).filter (isStale cutoff c)

/-- The second pass of a scan (lines 285-293): each listed key is checked again
and deleted when still older than the cutoff; the count of deletions is kept. -/
def evictKeys (cutoff : Int) (keys : List String) (acc : Cache × Nat) : Cache × Nat :=
  keys.foldl (fun a key =>
    if isStale cutoff a.1 key then (Cache.delete a.1 key, a.2 + 1) else a) acc

/-- One scan of the cache (lines 273-293) on the pair of the cache and
`numcleaned`. -/
def scan (cutoff : Int) (acc : Cache × Nat) : Cache × Nat :=
  evictKeys cutoff (staleKeys cutoff acc.1) acc

/-- The `do ... while` loop of `cacheCleaner` (lines 271-300). Arguments: the
bound on the number of scans (`none` when it is exhausted), the number `j` of
scans done so far, the globals, the cutoff, `numcleaned`, and the cutoffs used
so far. -/
def cleanerLoop (env : CleanerEnv) :
    Nat → Nat → State → Int → Nat → List Int → Option (State × Nat × List Int)
  | 0, _, _, _, _, _ => none
  | fuel + 1, j, st, cutoff, numcleaned, seen =>
    let swept := scan cutoff (st.CACHE, numcleaned)
    let st1 : State := { st with CACHE := swept.1 }
    let st2 : State := if DEBUG then getStats (env.memory j) st1 else st1
    if MAX_MEMORY_USAGE < env.rss j then
      cleanerLoop env fuel (j + 1) st2 (cutoff + CACHE_AGE_RAMPUP) swept.2 (seen ++ [cutoff])
    else
      some (st2, swept.2, seen ++ [cutoff])

/-- The result of a `cacheCleaner` call: the globals afterwards, the returned
value (`none` for JavaScript's `undefined`), and the cutoff of each scan. -/
structure Cleaning where
  state : State
  result : Option Nat
  cutoffs : List Int
deriving DecidableEq, Repr

/-- Source `cacheCleaner()` (lines 253-315). `fuel` bounds the number of scans;
`none` means the loop did not stop within the bound. -/
def cacheCleaner (env : CleanerEnv) (fuel : Nat) (st : State) : Option Cleaning :=
  if st.CLEANER_RUNNING then
    some { state := st, result := none, cutoffs := [] }
  else
    let st1 : State := { st with CLEANER_RUNNING := true }
    let st2 : State := { st1 with STATS := { st1.STATS with
      cleaner := { st1.STATS.cleaner with runs := st1.STATS.cleaner.runs + 1, last := env.tLast } } }
    let cutoff := env.tCutoff - MAX_CACHE_AGE
    match cleanerLoop env fuel 0 st2 cutoff 0 [] with
    | none => none
    | some (st3, numcleaned, cutoffs) =>
      let st4 : State := { st3 with CLEANER_RUNNING := false }
      let st5 : State := { st4 with STATS := { st4.STATS with
        cleaner := { st4.STATS.cleaner with cleaned := st4.STATS.cleaner.cleaned + numcleaned } } }
      let st6 : State := { st5 with STATS := { st5.STATS with
        cleaner := { st5.STATS.cleaner with lastduration := env.tEnd - st5.STATS.cleaner.last } } }
      let st7 : State := if DEBUG then getStats (env.memory cutoffs.length) st6 else st6
      some { state := st7, result := some numcleaned, cutoffs := cutoffs }

/-! ## Concrete inputs used in the instances below -/

/-- A stand-in for Node's `url.parse` on the concrete URLs below: the scheme is
what precedes the first `:` (with the colon), the host what follows `://` up to
the next `/`. -/
def sampleParse (u : String) : Uri :=
  let cs := u.data
  let scheme := cs.takeWhile (fun ch => decide (ch ≠ ':'))
  let rest := cs.dropWhile (fun ch => decide (ch ≠ ':'))
  match rest with
  | ':' :: '/' :: '/' :: tail =>
    let host := tail.takeWhile (fun ch => decide (ch ≠ '/'))
    { protocol := some (String.mk (scheme ++ [':']))
      hostname := if host = [] then none else some (String.mk host) }
  | ':' :: _ => { protocol := some (String.mk (scheme ++ [':'])), hostname := none }
  | _ => { protocol := none, hostname := none }

/-- The counters at process start. -/
def STATS0 : Stats :=
  { cache := { hits := 0, misses := 0, size := 0, memory := 0 }
    responses := { successful := 0, failures := 0, last := 0 }
    total_hops := 0
    cleaner := { runs := 0, cleaned := 0, last := 0, lastduration := 0 } }

/-- The globals at process start: empty cache, zero counters, cleaner idle. -/
def state0 : State := { CACHE := [], STATS := STATS0, CLEANER_RUNNING := false }

/-- The element that follows the first occurrence of `u` in a list, if any. -/
def nextIn : List String → String → Option String
  | a :: b :: rest, u => if a = u then some b else nextIn (b :: rest) u
  | _, _ => none

/-- A transport in which every URL of `us` that has a successor answers 301 with
that successor as location, and every other URL has the outcome `final`. -/
def chainTransport (us : List String) (final : Outcome) : Transport :=
  fun u =>
    match nextIn us u with
    | some v => Outcome.response 301 (some v)
    | none => final

/-- The chain A, B, C of three URLs. -/
def urlsABC : List String := ["http://a/", "http://b/", "http://c/"]

/-- A, B redirect along the chain, C answers 200. -/
def trABC : Transport := chainTransport urlsABC (Outcome.response 200 none)

/-- A chain of ten URLs. -/
def urlsTen : List String :=
  ["http://h0/", "http://h1/", "http://h2/", "http://h3/", "http://h4/",
   "http://h5/", "http://h6/", "http://h7/", "http://h8/", "http://h9/"]

/-- Each of the ten URLs redirects to the next one; the last one would answer 200. -/
def trTen : Transport := chainTransport urlsTen (Outcome.response 200 none)

/-- The loop A, B, A: A redirects to B and B back to A. -/
def trLoopAB : Transport :=
  chainTransport ["http://a/", "http://b/", "http://a/"] (Outcome.response 200 none)

/-- The loop A, A: A redirects to itself. -/
def trLoopA : Transport :=
  chainTransport ["http://a/", "http://a/"] (Outcome.response 200 none)

/-- Every probe ends in an `error` event whose message starts with `ETIMEDOUT`. -/
def trTimedOut : Transport := fun _ => Outcome.error "ETIMEDOUT"

/-- U redirects to V. -/
def trUV : Transport := chainTransport ["http://u/", "http://v/"] (Outcome.response 200 none)

/-- A cache that holds V, resolved to itself with code 200 at time 0. -/
def stateV : State :=
  { state0 with CACHE := [("http://v/", { lastaccess := 0, code := 200, text := "http://v/" })] }

/-- A cache with three entries: one last read at 100000000, one at 400000000
and one at 999999999. -/
def stateThree : State :=
  { state0 with CACHE :=
      [("http://old/", { lastaccess := 100000000, code := 200, text := "http://old/" }),
       ("http://mid/", { lastaccess := 400000000, code := 200, text := "http://mid/" }),
       ("http://new/", { lastaccess := 999999999, code := 200, text := "http://new/" })] }

/-- A cleaner run at time 1000000000 in which the memory readings after the
first two scans are above the ceiling and every later one is 0. -/
def envTwoHigh : CleanerEnv :=
  { tLast := 1000000000
    tCutoff := 1000000000
    tEnd := 1000000005
    rss := fun j => if j < 2 then MAX_MEMORY_USAGE + 1 else 0
    memory := fun _ => 0 }

/-- The globals while a cleaner run is marked as in progress. -/
def stateBusy : State := { stateThree with CLEANER_RUNNING := true }

/-- A cleaner run in which every memory reading is above the ceiling. -/
def envAlwaysHigh : CleanerEnv :=
  { envTwoHigh with rss := fun _ => MAX_MEMORY_USAGE + 1 }

/-! ## Predicates used in the statements -/

/-- A valid http/https URL: it passes the validation of `resolveURL` (lines 144
and 152), that is, the parsed scheme is `http:` or `https:` and the parsed host
is present. Node's `url.parse` finds no scheme in the empty string or in a
property name of `Object.prototype`; `parse` being a parameter here, it is part
of the predicate that the URL is neither (the empty string is falsy as a
`Location` header on line 193, an inherited name is truthy on line 105). -/
abbrev validURL (parse : String → Uri) (u : String) : Prop :=
  u ≠ "" ∧ u ∉ inheritedNames ∧
    ((parse u).protocol = some "http:" ∨ (parse u).protocol = some "https:") ∧
    truthy (parse u).hostname = true

/-- The probe of `u` answers 301 or 302 with `Location: v`. -/
abbrev RedirectsTo (tr : Transport) (u v : String) : Prop :=
  (tr u = Outcome.response 301 (some v)) ∨ (tr u = Outcome.response 302 (some v))

/-- The counters after `n` cache misses that each led to a probe. -/
def advance (n : Nat) (st : State) : State :=
  { st with STATS := { st.STATS with
      cache := { st.STATS.cache with misses := st.STATS.cache.misses + n }
      total_hops := st.STATS.total_hops + n } }

/-- Prefix the probes of a resolution with the probes issued before it. -/
def withProbes (us : List String) (r : Resolution) : Resolution :=
  { r with probes := us ++ r.probes }

/-! ## Cache lemmas -/

theorem Cache.get_put_self (c : Cache) (k : String) (r : Record) :
    Cache.get (Cache.put c k r) k = some r := by
  induction c with
  | nil => simp [Cache.put, Cache.get]
  | cons e rest ih =>
    obtain ⟨k', r'⟩ := e
    by_cases h : k' = k
    · simp [Cache.put, Cache.get, h]
    · simp [Cache.put, Cache.get, h, ih]

theorem Cache.get_put_ne (c : Cache) (k k' : String) (r : Record) (h : k ≠ k') :
    Cache.get (Cache.put c k r) k' = Cache.get c k' := by
  induction c with
  | nil => simp [Cache.put, Cache.get, h]
  | cons e rest ih =>
    obtain ⟨k0, r0⟩ := e
    by_cases h0 : k0 = k
    · subst h0
      simp [Cache.put, Cache.get, h]
    · by_cases h1 : k0 = k'
      · subst h1
        simp [Cache.put, Cache.get, h0]
      · simp [Cache.put, Cache.get, h0, h1, ih]

theorem get_storeTrail_of_mem (trail : List String) (c : Cache) (r : Record) (k : String)
    (h : k ∈ trail) : Cache.get (storeTrail c trail r) k = some r := by
  induction trail using List.reverseRecOn generalizing c with
  | nil => simp at h
  | append_singleton init u ih =>
    unfold storeTrail at ih ⊢
    rw [List.foldl_append]
    simp only [List.foldl_cons, List.foldl_nil]
    by_cases hu : u = k
    · subst hu
      exact Cache.get_put_self _ _ _
    · rw [Cache.get_put_ne _ _ _ _ hu]
      apply ih
      rcases List.mem_append.mp h with h | h
      · exact h
      · simp at h
        exact absurd h.symm hu

theorem get_storeTrail_of_not_mem (trail : List String) (c : Cache) (r : Record) (k : String)
    (h : k ∉ trail) : Cache.get (storeTrail c trail r) k = Cache.get c k := by
  induction trail generalizing c with
  | nil => rfl
  | cons u rest ih =>
    simp only [List.mem_cons, not_or] at h
    unfold storeTrail at ih ⊢
    rw [List.foldl_cons, ih _ h.2]
    exact Cache.get_put_ne _ _ _ _ (fun e => h.1 e.symm)

/-! ## One step of resolveURL -/

theorem Cache.read_own (c : Cache) (k : String) (r : Record) (h : Cache.get c k = some r) :
    Cache.read c k = Slot.own r := by
  simp only [Cache.read, h]

theorem Cache.read_absent (c : Cache) (k : String) (h : Cache.get c k = none)
    (hname : k ∉ inheritedNames) : Cache.read c k = Slot.absent := by
  simp only [Cache.read, h, hname, if_false]

theorem Cache.read_inherited (c : Cache) (k : String) (h : Cache.get c k = none)
    (hname : k ∈ inheritedNames) : Cache.read c k = Slot.inherited := by
  simp only [Cache.read, h, hname, if_true]

theorem advance_zero (st : State) : advance 0 st = st := rfl

theorem advance_advance (m n : Nat) (st : State) :
    advance m (advance n st) = advance (n + m) st := by
  simp [advance, Nat.add_assoc]

theorem advance_CACHE (n : Nat) (st : State) : (advance n st).CACHE = st.CACHE := rfl

theorem resolveURLAux_lasturl (parse : String → Uri) (tr : Transport) (now : Int) (fuel : Nat)
    (st : State) (urlin : String) (trail : List String) (l l' : Option String) :
    resolveURLAux parse tr now fuel st urlin trail l =
      resolveURLAux parse tr now fuel st urlin trail l' := by
  cases fuel with
  | zero => rfl
  | succ f => simp only [resolveURLAux]

theorem validURL_checks {parse : String → Uri} {u : String} (h : validURL parse u) :
    (!truthy (parse u).protocol ||
      ((parse u).protocol != some "http:" && (parse u).protocol != some "https:")) = false ∧
    (!truthy (parse u).hostname) = false := by
  obtain ⟨_, _, hp, hh⟩ := h
  refine ⟨?_, by simp [hh]⟩
  rcases hp with hp | hp <;> rw [hp] <;> decide

/-- A miss on a valid URL that is not in the trail and does not reach the hop
limit issues the probe; a 301/302 answer with a location recurses. -/
theorem step_redirect (parse : String → Uri) (tr : Transport) (now : Int) (f : Nat)
    (st : State) (u v : String) (trail : List String) (l : Option String)
    (hmiss : Cache.get st.CACHE u = none) (hfresh : u ∉ trail)
    (hlen : trail.length + 1 < MAX_HOPS) (hvalid : validURL parse u)
    (hred : RedirectsTo tr u v) (hv : v ≠ "") :
    resolveURLAux parse tr now (f + 1) st u trail l =
      (resolveURLAux parse tr now f (advance 1 st) v (trail ++ [u]) none).map
        (withProbes [u]) := by
  obtain ⟨h1, h2⟩ := validURL_checks hvalid
  have hread := Cache.read_absent _ _ hmiss hvalid.2.1
  have hlen' : ¬ MAX_HOPS ≤ (trail ++ [u]).length := by
    simp only [List.length_append, List.length_singleton]; omega
  rw [resolveURLAux]
  simp only [hread, hfresh, hlen', h1, h2, if_false]
  rcases hred with hred | hred <;> rw [hred] <;>
    simp only [hv, ne_eq, not_false_eq_true, if_true, true_or, or_true] <;>
    rw [resolveURLAux_lasturl parse tr now f _ v _ (some u) none] <;> rfl

/-- Following a run of redirects `us` that ends at `target`: every URL of `us`
is a miss, is probed and answers with a redirect to the next one. -/
theorem walk (parse : String → Uri) (tr : Transport) (now : Int) (f : Nat) (target : String)
    (htarget : target ≠ "") :
    ∀ (us : List String) (start : String) (trail : List String) (st : State) (l : Option String),
      (us ++ [target]).head? = some start →
      List.Chain' (RedirectsTo tr) (us ++ [target]) →
      (∀ x ∈ us, validURL parse x ∧ Cache.get st.CACHE x = none ∧ x ∉ trail) →
      us.Nodup →
      trail.length + us.length < MAX_HOPS →
      resolveURLAux parse tr now (f + us.length) st start trail l =
        (resolveURLAux parse tr now f (advance us.length st) target (trail ++ us) none).map
          (withProbes us) := by
  intro us
  induction us with
  | nil =>
    intro start trail st l hhead _ _ _ _
    simp only [List.nil_append, List.head?_cons, Option.some.injEq] at hhead
    subst hhead
    simp only [List.length_nil, Nat.add_zero, advance_zero, List.append_nil]
    rw [resolveURLAux_lasturl parse tr now f st target trail l none]
    have hid : withProbes [] = (id : Resolution → Resolution) := by
      funext r; simp [withProbes]
    rw [hid, Option.map_id]; rfl
  | cons u rest ih =>
    intro start trail st l hhead hchain hall hnodup hlen
    simp only [List.cons_append, List.head?_cons, Option.some.injEq] at hhead
    subst hhead
    obtain ⟨v, hv⟩ : ∃ v, (rest ++ [target]).head? = some v := by
      cases rest with
      | nil => exact ⟨target, rfl⟩
      | cons v rest1 => exact ⟨v, rfl⟩
    rw [List.cons_append, List.chain'_cons'] at hchain
    obtain ⟨hstep, hchain1⟩ := hchain
    have hred : RedirectsTo tr u v := hstep v (by simp [hv])
    have hvne : v ≠ "" := by
      cases rest with
      | nil =>
        simp only [List.nil_append, List.head?_cons, Option.some.injEq] at hv
        subst hv; exact htarget
      | cons w rest1 =>
        simp only [List.cons_append, List.head?_cons, Option.some.injEq] at hv
        subst hv
        exact (hall w (by simp)).1.1
    obtain ⟨hvalid, hmiss, hfresh⟩ := hall u (by simp)
    have hlen1 : trail.length + 1 < MAX_HOPS := by
      simp only [List.length_cons] at hlen; omega
    have hfuel : f + (u :: rest).length = (f + rest.length) + 1 := by
      simp only [List.length_cons]; omega
    rw [hfuel, step_redirect parse tr now (f + rest.length) st u v trail l
      hmiss hfresh hlen1 hvalid hred hvne]
    have hnd := List.nodup_cons.mp hnodup
    rw [ih v (trail ++ [u]) (advance 1 st) none hv hchain1 ?_ hnd.2 ?_]
    · rw [Option.map_map]
      simp only [advance_advance, List.length_cons, List.append_assoc, List.singleton_append]
      have hfun : withProbes [u] ∘ withProbes rest = withProbes (u :: rest) := by
        funext r; simp [withProbes]
      rw [hfun, Nat.add_comm 1 rest.length]
    · intro x hx
      obtain ⟨hxv, hxm, hxf⟩ := hall x (List.mem_cons_of_mem _ hx)
      refine ⟨hxv, hxm, ?_⟩
      simp only [List.mem_append, List.mem_singleton, not_or]
      refine ⟨hxf, ?_⟩
      rintro rfl
      exact hnd.1 hx
    · have h1 : (trail ++ [u]).length = trail.length + 1 := by simp
      have h2 : (u :: rest).length = rest.length + 1 := by simp
      rw [h1]; rw [h2] at hlen
      omega

/-- A cache hit answers from the record without a probe (lines 105-111). -/
theorem step_hit (parse : String → Uri) (tr : Transport) (now : Int) (f : Nat)
    (st : State) (u : String) (trail : List String) (l : Option String) (rec : Record)
    (hhit : Cache.get st.CACHE u = some rec) :
    resolveURLAux parse tr now (f + 1) st u trail l =
      some { state := { st with
                          STATS := bumpHits st.STATS
                          CACHE := Cache.put st.CACHE u { rec with lastaccess := now } }
             events := [(some rec.code, some rec.text)]
             probes := []
             inheritedWrite := none } := by
  rw [resolveURLAux]
  simp only [Cache.read_own _ _ _ hhit]

/-- A miss on a URL already in the trail is the cycle error (lines 121-128). -/
theorem step_cycle (parse : String → Uri) (tr : Transport) (now : Int) (f : Nat)
    (st : State) (u : String) (trail : List String) (l : Option String)
    (hmiss : Cache.get st.CACHE u = none) (hname : u ∉ inheritedNames) (hseen : u ∈ trail) :
    resolveURLAux parse tr now (f + 1) st u trail l =
      some (sendResult now 400 (circularText trail.length u) trail
        { st with STATS := bumpMisses st.STATS }) := by
  rw [resolveURLAux]
  simp only [Cache.read_absent _ _ hmiss hname, hseen, if_true]

/-- A miss that brings the trail to `MAX_HOPS` URLs is the hop-limit error
(lines 131-138). -/
theorem step_limit (parse : String → Uri) (tr : Transport) (now : Int) (f : Nat)
    (st : State) (u : String) (trail : List String) (l : Option String)
    (hmiss : Cache.get st.CACHE u = none) (hname : u ∉ inheritedNames) (hfresh : u ∉ trail)
    (hlen : MAX_HOPS ≤ trail.length + 1) :
    resolveURLAux parse tr now (f + 1) st u trail l =
      some (sendResult now 400 "ERR Too many hops" (trail ++ [u])
        { st with STATS := bumpMisses st.STATS }) := by
  have hlen' : MAX_HOPS ≤ (trail ++ [u]).length := by
    simp only [List.length_append, List.length_singleton]; exact hlen
  rw [resolveURLAux]
  simp only [Cache.read_absent _ _ hmiss hname, hfresh, hlen', if_true, if_false]

/-- A miss on a valid URL whose probe answers a status other than 301 and 302
ends the resolution with that status and the URL itself (lines 205-214). -/
theorem step_terminal (parse : String → Uri) (tr : Transport) (now : Int) (f : Nat)
    (st : State) (u : String) (trail : List String) (l : Option String)
    (s : Nat) (loc : Option String)
    (hmiss : Cache.get st.CACHE u = none) (hfresh : u ∉ trail)
    (hlen : trail.length + 1 < MAX_HOPS) (hvalid : validURL parse u)
    (htr : tr u = Outcome.response s loc) (h301 : s ≠ 301) (h302 : s ≠ 302) :
    resolveURLAux parse tr now (f + 1) st u trail l =
      some (withProbes [u] (sendResult now s u (trail ++ [u]) (advance 1 st))) := by
  obtain ⟨h1, h2⟩ := validURL_checks hvalid
  have hlen' : ¬ MAX_HOPS ≤ (trail ++ [u]).length := by
    simp only [List.length_append, List.length_singleton]; omega
  rw [resolveURLAux]
  simp only [Cache.read_absent _ _ hmiss hvalid.2.1, hfresh, hlen', h1, h2, if_false, htr,
    h301, h302, or_self]
  by_cases h200 : s = 200
  · subst h200; rfl
  · simp only [h200, ne_eq, not_false_eq_true, if_true]; rfl

/-- The bound `MAX_HOPS` on the depth of the recursion is never exhausted: every
call of `resolveURLAux` whose bound covers the room left in the trail returns. -/
theorem resolveURLAux_total (parse : String → Uri) (tr : Transport) (now : Int) :
    ∀ (fuel : Nat) (st : State) (u : String) (trail : List String) (l : Option String),
      MAX_HOPS ≤ fuel + trail.length → 0 < fuel →
      ∃ r, resolveURLAux parse tr now fuel st u trail l = some r := by
  intro fuel
  induction fuel with
  | zero => intro _ _ _ _ _ h; omega
  | succ f ih =>
    intro st u trail l hfuel _
    rw [resolveURLAux]
    split
    · exact ⟨_, rfl⟩
    · exact ⟨_, rfl⟩
    · simp only
      split_ifs with h1 h2 h3 h4
      · exact ⟨_, rfl⟩
      · exact ⟨_, rfl⟩
      · exact ⟨_, rfl⟩
      · exact ⟨_, rfl⟩
      · have hlen : (trail ++ [u]).length = trail.length + 1 := by simp
        rw [hlen] at h2
        split
        · exact ⟨_, rfl⟩
        · split_ifs with h5 h6
          · split
            · split_ifs with h7
              · obtain ⟨r, hr⟩ := ih
                  { st with STATS := bumpHops (bumpMisses st.STATS) } _ (trail ++ [u]) (some u)
                  (by rw [hlen]; omega) (by omega)
                exact ⟨_, by rw [hr]; rfl⟩
              · exact ⟨_, rfl⟩
            · exact ⟨_, rfl⟩
          · exact ⟨_, rfl⟩
          · exact ⟨_, rfl⟩
        · split_ifs with h5
          · exact ⟨_, rfl⟩
          · exact ⟨_, rfl⟩

/-- Every top-level `resolveURL` call returns. -/
theorem resolveURL_total (parse : String → Uri) (tr : Transport) (now : Int) (st : State)
    (u : String) : ∃ r, resolveURL parse tr now st u = some r :=
  resolveURLAux_total parse tr now MAX_HOPS st u [] none (by simp) (by decide)

/-! ## Claims about resolveURL -/

/-- C1 (chain fan-out): for a chain `us` of fewer than `MAX_HOPS` distinct,
valid, uncached URLs in which every probe but the last answers 301 or 302 with
the next URL as location and the last probe answers a status `s` other than 301
and 302, `resolveURL` on the first URL calls the handler once with `(s, un)`,
probes exactly the URLs of the chain, and leaves under every URL of the chain a
record with code `s` and text `un`; a following `resolveURL` on any URL of the
chain, whatever the transport and clock, calls the handler with `(s, un)` and
issues no probe. -/
theorem chain_fan_out (parse : String → Uri) (tr : Transport) (now : Int) (st : State)
    (us : List String) (u1 un : String) (s : Nat) (loc : Option String)
    (hfirst : us.head? = some u1) (hlast : us.getLast? = some un)
    (hlen : us.length < MAX_HOPS) (hnodup : us.Nodup)
    (hvalid : ∀ u ∈ us, validURL parse u)
    (hmiss : ∀ u ∈ us, Cache.get st.CACHE u = none)
    (hchain : List.Chain' (RedirectsTo tr) us)
    (hend : tr un = Outcome.response s loc) (h301 : s ≠ 301) (h302 : s ≠ 302) :
    ∃ r, resolveURL parse tr now st u1 = some r ∧
      r.events = [(some s, some un)] ∧ r.probes = us ∧
      (∀ u ∈ us, Cache.get r.state.CACHE u =
        some ⟨if s ≠ 200 then now - ERROR_BACKDATE else now, s, un⟩) ∧
      ∀ (tr' : Transport) (now' : Int) (uk : String), uk ∈ us →
        ∃ r', resolveURL parse tr' now' r.state uk = some r' ∧
          r'.events = [(some s, some un)] ∧ r'.probes = [] ∧
          r'.state.STATS.total_hops = r.state.STATS.total_hops := by
  obtain ⟨init, rfl⟩ := List.getLast?_eq_some_iff.mp hlast
  have hinit : init.length + 1 < MAX_HOPS := by
    simpa only [List.length_append, List.length_singleton] using hlen
  have hnd := List.nodup_append.mp hnodup
  have hun : validURL parse un := hvalid un (by simp)
  have hfuel : MAX_HOPS = (MAX_HOPS - init.length - 1 + 1) + init.length := by omega
  have hw := walk parse tr now (MAX_HOPS - init.length - 1 + 1) un hun.1 init u1 [] st none
    hfirst hchain
    (fun x hx => ⟨hvalid x (by simp [hx]), hmiss x (by simp [hx]), by simp⟩)
    hnd.1 (by simp only [List.length_nil]; omega)
  have hfresh : un ∉ [] ++ init := by
    intro h
    exact hnd.2.2 (by simpa using h) (List.mem_singleton_self un)
  have ht := step_terminal parse tr now (MAX_HOPS - init.length - 1) (advance init.length st)
    un ([] ++ init) none s loc (by rw [advance_CACHE]; exact hmiss un (by simp)) hfresh
    (by simpa using hinit) hun hend h301 h302
  refine ⟨withProbes init (withProbes [un]
    (sendResult now s un ([] ++ init ++ [un]) (advance 1 (advance init.length st)))),
    ?_, ?_, ?_, ?_, ?_⟩
  · unfold resolveURL
    rw [hfuel, hw, ht]
    rfl
  · rfl
  · simp [withProbes, sendResult]
  · intro u hu
    exact get_storeTrail_of_mem _ _ _ _ (by simpa using hu)
  · intro tr' now' uk huk
    have hget := get_storeTrail_of_mem ([] ++ init ++ [un]) st.CACHE
      ⟨if s ≠ 200 then now - ERROR_BACKDATE else now, s, un⟩ uk (by simpa using huk)
    exact ⟨_, step_hit parse tr' now' 9 _ uk [] none _ hget, rfl, rfl, rfl⟩

/-- Instance of C1: A redirects to B, B to C, C answers 200, empty cache. -/
theorem chain_fan_out_witness :
    ∃ r, resolveURL sampleParse trABC 1000 state0 "http://a/" = some r ∧
      r.events = [(some 200, some "http://c/")] ∧ r.probes = urlsABC ∧
      (∀ u ∈ urlsABC, Cache.get r.state.CACHE u =
        some ⟨if 200 ≠ 200 then 1000 - ERROR_BACKDATE else 1000, 200, "http://c/"⟩) ∧
      ∀ (tr' : Transport) (now' : Int) (uk : String), uk ∈ urlsABC →
        ∃ r', resolveURL sampleParse tr' now' r.state uk = some r' ∧
          r'.events = [(some 200, some "http://c/")] ∧ r'.probes = [] ∧
          r'.state.STATS.total_hops = r.state.STATS.total_hops :=
  chain_fan_out sampleParse trABC 1000 state0 urlsABC "http://a/" "http://c/" 200 none
    (by decide) (by decide) (by decide) (by decide) (by decide) (by decide)
    (by simp only [urlsABC, List.chain'_cons, List.chain'_singleton, and_true]; decide)
    (by decide) (by decide) (by decide)

/-- C4 (hop limit): for a chain `us` of `MAX_HOPS` or more distinct, valid,
uncached URLs in which every probe answers 301 or 302 with the next URL as
location, `resolveURL` on the first URL calls the handler once with
`(400, "ERR Too many hops")`, probes only the first `MAX_HOPS - 1` URLs (so
`STATS.total_hops` grows by 9, which is at most 10), and stores that outcome
under each of the first `MAX_HOPS` URLs, which are the trail. -/
theorem hop_limit (parse : String → Uri) (tr : Transport) (now : Int) (st : State)
    (us : List String) (u1 : String)
    (hfirst : us.head? = some u1) (hlen : MAX_HOPS ≤ us.length) (hnodup : us.Nodup)
    (hvalid : ∀ u ∈ us, validURL parse u)
    (hmiss : ∀ u ∈ us, Cache.get st.CACHE u = none)
    (hchain : List.Chain' (RedirectsTo tr) us) :
    ∃ r, resolveURL parse tr now st u1 = some r ∧
      r.events = [(some 400, some "ERR Too many hops")] ∧
      r.probes = us.take (MAX_HOPS - 1) ∧
      r.state.STATS.total_hops = st.STATS.total_hops + (MAX_HOPS - 1) ∧
      r.state.STATS.total_hops ≤ st.STATS.total_hops + 10 ∧
      ∀ u ∈ us.take MAX_HOPS, Cache.get r.state.CACHE u =
        some ⟨now - ERROR_BACKDATE, 400, "ERR Too many hops"⟩ := by
  have hM : MAX_HOPS = 10 := rfl
  have h9 : 9 < us.length := by omega
  have htake : us.take 10 = us.take 9 ++ [us[9]] := by
    rw [List.take_succ]; simp [List.getElem?_eq_getElem h9]
  have hilen : (us.take 9).length = 9 := by
    rw [List.length_take]; omega
  have hsub : ∀ x ∈ us.take 10, x ∈ us := fun x hx => List.mem_of_mem_take hx
  have hnd10 : (us.take 9 ++ [us[9]]).Nodup := by
    rw [← htake]; exact hnodup.sublist (List.take_sublist _ _)
  have hnd := List.nodup_append.mp hnd10
  have hmem9 : ∀ x ∈ us.take 9, x ∈ us := fun x hx => List.mem_of_mem_take hx
  have htv : validURL parse us[9] := hvalid _ (List.getElem_mem _)
  have hhead : (us.take 9 ++ [us[9]]).head? = some u1 := by
    rw [← htake, List.head?_take]; simpa using hfirst
  have hch : List.Chain' (RedirectsTo tr) (us.take 9 ++ [us[9]]) := by
    rw [← htake]; exact hchain.take 10
  have hw := walk parse tr now 1 us[9] htv.1 (us.take 9) u1 [] st none hhead hch
    (fun x hx => ⟨hvalid x (hmem9 x hx), hmiss x (hmem9 x hx), by simp⟩)
    hnd.1 (by rw [hilen, hM]; simp)
  have hfresh : us[9] ∉ [] ++ us.take 9 := by
    intro h
    exact hnd.2.2 (by simpa using h) (List.mem_singleton_self _)
  have ht := step_limit parse tr now 0 (advance (us.take 9).length st) us[9]
    ([] ++ us.take 9) none
    (by rw [advance_CACHE]; exact hmiss _ (List.getElem_mem _)) htv.2.1 hfresh
    (by simp only [List.nil_append, hilen, hM]; omega)
  refine ⟨withProbes (us.take 9) (sendResult now 400 "ERR Too many hops"
    ([] ++ us.take 9 ++ [us[9]])
    { advance (us.take 9).length st with
      STATS := bumpMisses (advance (us.take 9).length st).STATS }), ?_, ?_, ?_, ?_, ?_, ?_⟩
  · unfold resolveURL
    have hfuel : MAX_HOPS = 1 + (us.take 9).length := by rw [hilen, hM]
    rw [hfuel, hw, ht]
    rfl
  · rfl
  · simp [withProbes, sendResult, hM]
  · simp [withProbes, sendResult, advance, bumpMisses, hM, hilen]
  · simp [withProbes, sendResult, advance, bumpMisses, hilen]
  · intro u hu
    rw [hM, htake] at hu
    exact get_storeTrail_of_mem _ _ _ _ (by simpa using hu)

/-- Instance of C4: a chain of ten redirecting URLs, empty cache. -/
theorem hop_limit_witness :
    ∃ r, resolveURL sampleParse trTen 1000 state0 "http://h0/" = some r ∧
      r.events = [(some 400, some "ERR Too many hops")] ∧
      r.probes = urlsTen.take (MAX_HOPS - 1) ∧
      r.state.STATS.total_hops = state0.STATS.total_hops + (MAX_HOPS - 1) ∧
      r.state.STATS.total_hops ≤ state0.STATS.total_hops + 10 ∧
      ∀ u ∈ urlsTen.take MAX_HOPS, Cache.get r.state.CACHE u =
        some ⟨1000 - ERROR_BACKDATE, 400, "ERR Too many hops"⟩ :=
  hop_limit sampleParse trTen 1000 state0 urlsTen "http://h0/"
    (by decide) (by decide) (by decide) (by decide) (by decide)
    (by simp only [urlsTen, List.chain'_cons, List.chain'_singleton, and_true]; decide)

theorem circularText_eq (n : Nat) (u : String) :
    circularText n u =
      "ERR Circular reference found after " ++ toString n ++
        (if n = 1 then " hop" else " hops") ++ ", pointing back to " ++ u := by
  unfold circularText
  by_cases h : n = 1
  · simp only [h, if_true, String.append_empty]
  · simp only [h, if_false, String.append_assoc]
    rfl

/-- C5 as amended (cycle detection): for a chain `us` of `N` distinct, valid,
uncached URLs (`1 ≤ N < MAX_HOPS`) whose last probe redirects to a URL `ui` of
the chain, `resolveURL` on the first URL calls the handler once with status 400
and the text "ERR Circular reference found after N hops, pointing back to ui",
where the word is "hop" when `N = 1`; it probes exactly the `N` URLs and stores
this outcome under every URL of the trail. -/
theorem cycle_detection (parse : String → Uri) (tr : Transport) (now : Int) (st : State)
    (us : List String) (u1 un ui : String)
    (hfirst : us.head? = some u1) (hlast : us.getLast? = some un)
    (hlen : us.length < MAX_HOPS) (hnodup : us.Nodup)
    (hvalid : ∀ u ∈ us, validURL parse u)
    (hmiss : ∀ u ∈ us, Cache.get st.CACHE u = none)
    (hchain : List.Chain' (RedirectsTo tr) us)
    (hback : RedirectsTo tr un ui) (hin : ui ∈ us) :
    ∃ r, resolveURL parse tr now st u1 = some r ∧
      r.events = [(some 400, some ("ERR Circular reference found after " ++ toString us.length ++
        (if us.length = 1 then " hop" else " hops") ++ ", pointing back to " ++ ui))] ∧
      r.probes = us ∧
      r.state.STATS.total_hops = st.STATS.total_hops + us.length ∧
      ∀ u ∈ us, Cache.get r.state.CACHE u =
        some ⟨now - ERROR_BACKDATE, 400,
          "ERR Circular reference found after " ++ toString us.length ++
            (if us.length = 1 then " hop" else " hops") ++ ", pointing back to " ++ ui⟩ := by
  have hch : List.Chain' (RedirectsTo tr) (us ++ [ui]) := by
    rw [List.chain'_append]
    refine ⟨hchain, List.chain'_singleton _, ?_⟩
    intro x hx y hy
    rw [hlast] at hx
    simp only [Option.mem_def, Option.some.injEq, List.head?_cons] at hx hy
    subst hx; subst hy
    exact hback
  have hhead : (us ++ [ui]).head? = some u1 := by
    rw [List.head?_append, hfirst]; rfl
  have hw := walk parse tr now (MAX_HOPS - us.length - 1 + 1) ui (hvalid ui hin).1 us u1 []
    st none hhead hch (fun x hx => ⟨hvalid x hx, hmiss x hx, by simp⟩) hnodup
    (by simp only [List.length_nil]; omega)
  rw [List.nil_append] at hw
  have ht := step_cycle parse tr now (MAX_HOPS - us.length - 1) (advance us.length st) ui
    us none (by rw [advance_CACHE]; exact hmiss ui hin) (hvalid ui hin).2.1 hin
  rw [circularText_eq] at ht
  refine ⟨withProbes us (sendResult now 400
    ("ERR Circular reference found after " ++ toString us.length ++
      (if us.length = 1 then " hop" else " hops") ++ ", pointing back to " ++ ui) us
    { advance us.length st with STATS := bumpMisses (advance us.length st).STATS }),
    ?_, ?_, ?_, ?_, ?_⟩
  · unfold resolveURL
    have hfuel : MAX_HOPS = (MAX_HOPS - us.length - 1 + 1) + us.length := by omega
    rw [hfuel, hw, ht]
    rfl
  · rfl
  · simp [withProbes, sendResult]
  · simp [withProbes, sendResult, advance, bumpMisses]
  · intro u hu
    exact get_storeTrail_of_mem us st.CACHE _ u hu

/-- Instance of C5: A redirects to B and B back to A; two hops are reported. -/
theorem cycle_detection_witness :
    ∃ r, resolveURL sampleParse trLoopAB 1000 state0 "http://a/" = some r ∧
      r.events = [(some 400, some ("ERR Circular reference found after " ++
        toString ["http://a/", "http://b/"].length ++
        (if ["http://a/", "http://b/"].length = 1 then " hop" else " hops") ++
        ", pointing back to " ++ "http://a/"))] ∧
      r.probes = ["http://a/", "http://b/"] ∧
      r.state.STATS.total_hops = state0.STATS.total_hops + ["http://a/", "http://b/"].length ∧
      ∀ u ∈ ["http://a/", "http://b/"], Cache.get r.state.CACHE u =
        some ⟨1000 - ERROR_BACKDATE, 400,
          "ERR Circular reference found after " ++
            toString ["http://a/", "http://b/"].length ++
            (if ["http://a/", "http://b/"].length = 1 then " hop" else " hops") ++
            ", pointing back to " ++ "http://a/"⟩ :=
  cycle_detection sampleParse trLoopAB 1000 state0 ["http://a/", "http://b/"]
    "http://a/" "http://b/" "http://a/"
    (by decide) (by decide) (by decide) (by decide) (by decide) (by decide)
    (by simp only [List.chain'_cons, List.chain'_singleton, and_true]; decide)
    (by decide) (by decide)

/-- C5 as stated fails for `N = 1`: when A redirects to itself the text reads
"after 1 hop", not "after 1 hops". -/
theorem cycle_text_one_hop :
    (resolveURL sampleParse trLoopA 1000 state0 "http://a/").map Resolution.events =
        some [(some 400,
          some "ERR Circular reference found after 1 hop, pointing back to http://a/")] ∧
      (resolveURL sampleParse trLoopA 1000 state0 "http://a/").map Resolution.events ≠
        some [(some 400,
          some "ERR Circular reference found after 1 hops, pointing back to http://a/")] := by
  decide

/-- Validation errors where `CACHE[url]` is undefined (no stored entry and not a
name inherited from `Object.prototype`): when the parsed scheme is missing or is
neither `http:` nor `https:` the handler is called once with
`(400, "ERR Invalid protocol: <url>")`, and when the scheme is `http:` or
`https:` but the host is missing it is called once with
`(400, "ERR Invalid URL: Missing hostname")`; in both cases no probe is issued,
`STATS.total_hops` is unchanged and the outcome is stored under the URL. -/
theorem validation_errors (parse : String → Uri) (tr : Transport) (now : Int) (st : State)
    (u : String) (hmiss : Cache.read st.CACHE u = Slot.absent) :
    ((truthy (parse u).protocol = false ∨
        ((parse u).protocol ≠ some "http:" ∧ (parse u).protocol ≠ some "https:")) →
      ∃ r, resolveURL parse tr now st u = some r ∧
        r.events = [(some 400, some ("ERR Invalid protocol: " ++ u))] ∧ r.probes = [] ∧
        r.state.STATS.total_hops = st.STATS.total_hops ∧
        Cache.get r.state.CACHE u =
          some ⟨now - ERROR_BACKDATE, 400, "ERR Invalid protocol: " ++ u⟩) ∧
    ((((parse u).protocol = some "http:" ∨ (parse u).protocol = some "https:") ∧
        truthy (parse u).hostname = false) →
      ∃ r, resolveURL parse tr now st u = some r ∧
        r.events = [(some 400, some "ERR Invalid URL: Missing hostname")] ∧ r.probes = [] ∧
        r.state.STATS.total_hops = st.STATS.total_hops ∧
        Cache.get r.state.CACHE u =
          some ⟨now - ERROR_BACKDATE, 400, "ERR Invalid URL: Missing hostname"⟩) := by
  have hlen : ¬ MAX_HOPS ≤ ([] ++ [u]).length := by
    simp only [List.nil_append, List.length_singleton]; decide
  constructor
  · intro hbad
    have hcond : (!truthy (parse u).protocol ||
        ((parse u).protocol != some "http:" && (parse u).protocol != some "https:")) = true := by
      rcases hbad with h | ⟨h1, h2⟩
      · simp [h]
      · simp [h1, h2]
    refine ⟨sendResult now 400 ("ERR Invalid protocol: " ++ u) ([] ++ [u])
      { st with STATS := bumpMisses st.STATS }, ?_, rfl, rfl, rfl, ?_⟩
    · unfold resolveURL
      rw [show MAX_HOPS = 9 + 1 from rfl, resolveURLAux]
      simp only [hmiss, List.not_mem_nil, hlen, hcond, if_true, if_false]
    · exact get_storeTrail_of_mem _ _ _ _ (by simp)
  · rintro ⟨hok, hhost⟩
    have hcond : (!truthy (parse u).protocol ||
        ((parse u).protocol != some "http:" && (parse u).protocol != some "https:")) = false := by
      rcases hok with h | h <;> rw [h] <;> decide
    have hcond2 : (!truthy (parse u).hostname) = true := by simp [hhost]
    refine ⟨sendResult now 400 "ERR Invalid URL: Missing hostname" ([] ++ [u])
      { st with STATS := bumpMisses st.STATS }, ?_, rfl, rfl, rfl, ?_⟩
    · unfold resolveURL
      rw [show MAX_HOPS = 9 + 1 from rfl, resolveURLAux]
      simp only [hmiss, List.not_mem_nil, hlen, hcond, hcond2, if_true, if_false,
        Bool.false_eq_true]
    · exact get_storeTrail_of_mem _ _ _ _ (by simp)

/-- The validation errors at `ftp://x` (scheme not http/https) and at `http://`
(no host), both on the empty cache. -/
theorem validation_errors_examples :
    (∃ r, resolveURL sampleParse trABC 1000 state0 "ftp://x" = some r ∧
        r.events = [(some 400, some ("ERR Invalid protocol: " ++ "ftp://x"))] ∧ r.probes = [] ∧
        r.state.STATS.total_hops = state0.STATS.total_hops ∧
        Cache.get r.state.CACHE "ftp://x" =
          some ⟨1000 - ERROR_BACKDATE, 400, "ERR Invalid protocol: " ++ "ftp://x"⟩) ∧
    (∃ r, resolveURL sampleParse trABC 1000 state0 "http://" = some r ∧
        r.events = [(some 400, some "ERR Invalid URL: Missing hostname")] ∧ r.probes = [] ∧
        r.state.STATS.total_hops = state0.STATS.total_hops ∧
        Cache.get r.state.CACHE "http://" =
          some ⟨1000 - ERROR_BACKDATE, 400, "ERR Invalid URL: Missing hostname"⟩) :=
  ⟨(validation_errors sampleParse trABC 1000 state0 "ftp://x" (by decide)).1 (by decide),
   (validation_errors sampleParse trABC 1000 state0 "http://" (by decide)).2 (by decide)⟩

/-- A URL that names a property inherited from `Object.prototype` and has no
stored entry is counted as a cache hit: the handler is called once with
`(undefined, undefined)`, nothing is probed or stored, and `lastaccess` is
assigned on the inherited value. -/
theorem inherited_name_is_a_hit (parse : String → Uri) (tr : Transport) (now : Int)
    (st : State) (u : String) (hmiss : Cache.get st.CACHE u = none)
    (hname : u ∈ inheritedNames) :
    resolveURL parse tr now st u =
      some { state := { st with STATS := bumpHits st.STATS }
             events := [(none, none)]
             probes := []
             inheritedWrite := some (u, now) } := by
  unfold resolveURL
  rw [show MAX_HOPS = 9 + 1 from rfl, resolveURLAux]
  simp only [Cache.read_inherited _ _ hmiss hname]

/-- C6 at its failing input: `constructor` has no scheme and no entry in the
empty cache, so C6 asks for `(400, "ERR Invalid protocol: constructor")` stored
under the URL; the code counts a cache hit, calls the handler with
`(undefined, undefined)` and stores nothing. -/
theorem constructor_answers_undefined :
    Cache.get state0.CACHE "constructor" = none ∧
    truthy (sampleParse "constructor").protocol = false ∧
    ∃ r, resolveURL sampleParse trABC 1000 state0 "constructor" = some r ∧
      r.events = [(none, none)] ∧
      r.events ≠ [(some 400, some "ERR Invalid protocol: constructor")] ∧
      r.probes = [] ∧
      Cache.get r.state.CACHE "constructor" = none ∧
      r.state.STATS.cache.hits = state0.STATS.cache.hits + 1 ∧
      r.state.STATS.cache.misses = state0.STATS.cache.misses ∧
      r.inheritedWrite = some ("constructor", 1000) :=
  ⟨by decide, by decide, _, rfl, by decide, by decide, by decide, by decide, by decide,
    by decide, by decide⟩

/-- C3 at its failing input: on an uncached valid URL whose probe ends in an
`error` event with the message `ETIMEDOUT`, the probe is issued and the
completion handler is never called. -/
theorem etimedout_never_completes :
    ∃ r, resolveURL sampleParse trTimedOut 1000 state0 "http://a/" = some r ∧
      r.events = [] ∧ r.probes = ["http://a/"] ∧ r.state.CACHE = [] :=
  ⟨_, rfl, by decide, by decide, by decide⟩

/-- C2 at its failing input: V is cached and U redirects to V. The first
`resolveURL` on U completes with the record of V but stores nothing under U;
the second one is a miss again and issues a probe. -/
theorem cached_chain_end_not_stored :
    ∃ r1 r2, resolveURL sampleParse trUV 1000 stateV "http://u/" = some r1 ∧
      r1.events = [(some 200, some "http://v/")] ∧
      Cache.get r1.state.CACHE "http://u/" = none ∧
      resolveURL sampleParse trUV 2000 r1.state "http://u/" = some r2 ∧
      r2.events = [(some 200, some "http://v/")] ∧
      r2.probes = ["http://u/"] ∧
      r2.state.STATS.total_hops = r1.state.STATS.total_hops + 1 ∧
      r2.state.STATS.cache.misses = r1.state.STATS.cache.misses + 1 :=
  ⟨_, _, rfl, by decide, by decide, rfl, by decide, by decide, by decide, by decide⟩

/-! ## One scan of the cleaner -/

theorem Cache.delete_cons_self (k : String) (r : Record) (rest : Cache) :
    Cache.delete ((k, r) :: rest) k = Cache.delete rest k := by
  simp [Cache.delete]

theorem Cache.delete_cons_ne (k0 k : String) (r : Record) (rest : Cache) (h : k0 ≠ k) :
    Cache.delete ((k0, r) :: rest) k = (k0, r) :: Cache.delete rest k := by
  simp [Cache.delete, h]

theorem Cache.get_delete_self (c : Cache) (k : String) :
    Cache.get (Cache.delete c k) k = none := by
  induction c with
  | nil => rfl
  | cons e rest ih =>
    obtain ⟨k0, r0⟩ := e
    by_cases h : k0 = k
    · subst h
      rw [Cache.delete_cons_self, ih]
    · rw [Cache.delete_cons_ne k0 k r0 rest h]
      simp only [Cache.get, h, if_false, ih]

theorem Cache.get_delete_ne (c : Cache) (k k' : String) (h : k' ≠ k) :
    Cache.get (Cache.delete c k) k' = Cache.get c k' := by
  induction c with
  | nil => rfl
  | cons e rest ih =>
    obtain ⟨k0, r0⟩ := e
    by_cases h0 : k0 = k
    · subst h0
      rw [Cache.delete_cons_self, ih]
      simp only [Cache.get, Ne.symm h, if_false]
    · rw [Cache.delete_cons_ne k0 k r0 rest h0]
      by_cases h1 : k0 = k'
      · simp only [Cache.get, h1, if_true]
      · simp only [Cache.get, h1, if_false, ih]

theorem isStale_eq (cutoff : Int) (c : Cache) (key : String) :
    isStale cutoff c key =
      match Cache.get c key with
      | some r => decide (r.lastaccess < cutoff)
      | none => false := by
  unfold isStale Cache.read
  cases Cache.get c key with
  | some r => rfl
  | none =>
    simp only
    split_ifs <;> rfl

theorem isStale_delete_ne (cutoff : Int) (c : Cache) (k k' : String) (h : k' ≠ k) :
    isStale cutoff (Cache.delete c k) k' = isStale cutoff c k' := by
  simp only [isStale_eq]
  rw [Cache.get_delete_ne c k k' h]

theorem isStale_delete_self (cutoff : Int) (c : Cache) (k : String) :
    isStale cutoff (Cache.delete c k) k = false := by
  simp only [isStale_eq]
  rw [Cache.get_delete_self]

theorem Cache.get_of_mem (c : Cache) (hnd : (Cache.keys c).Nodup) (e : String × Record)
    (he : e ∈ c) : Cache.get c e.1 = some e.2 := by
  induction c with
  | nil => simp at he
  | cons e0 rest ih =>
    obtain ⟨k0, r0⟩ := e0
    simp only [Cache.keys, List.map_cons, List.nodup_cons, List.mem_map, not_exists,
      not_and] at hnd
    rcases List.mem_cons.mp he with rfl | hmem
    · simp [Cache.get]
    · have hne : k0 ≠ e.1 := fun h => hnd.1 e hmem h.symm
      simp only [Cache.get, hne, if_false]
      exact ih hnd.2 hmem

theorem mem_keys_of_isStale (cutoff : Int) (c : Cache) (k : String)
    (h : isStale cutoff c k = true) : k ∈ Cache.keys c := by
  induction c with
  | nil => simp [isStale_eq, Cache.get] at h
  | cons e rest ih =>
    obtain ⟨k0, r0⟩ := e
    by_cases h0 : k0 = k
    · simp [Cache.keys, h0]
    · have : isStale cutoff rest k = true := by
        simpa [isStale_eq, Cache.get, h0] using h
      simp only [Cache.keys, List.map_cons, List.mem_cons]
      exact Or.inr (ih this)

theorem evictKeys_cons (cutoff : Int) (x : String) (rest : List String) (a : Cache) (n : Nat) :
    evictKeys cutoff (x :: rest) (a, n) =
      evictKeys cutoff rest
        (if isStale cutoff a x then (Cache.delete a x, n + 1) else (a, n)) := rfl

/-- What the second pass does to any record: it is gone when its key is listed
and stale, and untouched otherwise. -/
theorem get_evictKeys (cutoff : Int) (ks : List String) :
    ∀ (a : Cache) (n : Nat) (k : String),
      Cache.get (evictKeys cutoff ks (a, n)).1 k =
        if k ∈ ks ∧ isStale cutoff a k = true then none else Cache.get a k := by
  induction ks with
  | nil => intro a n k; simp [evictKeys]
  | cons x rest ih =>
    intro a n k
    rw [evictKeys_cons]
    by_cases hx : isStale cutoff a x = true
    · simp only [hx, if_true]
      rw [ih]
      by_cases hk : k = x
      · subst hk
        simp [isStale_delete_self, Cache.get_delete_self, hx]
      · simp [isStale_delete_ne cutoff a x k hk, Cache.get_delete_ne a x k hk, hk]
    · simp only [hx, if_false, Bool.false_eq_true]
      rw [ih]
      by_cases hk : k = x
      · subst hk
        simp [hx]
      · simp [hk]

/-- One scan removes exactly the records that are older than the cutoff. -/
theorem get_scan (cutoff : Int) (c : Cache) (n : Nat) (k : String) :
    Cache.get (scan cutoff (c, n)).1 k =
      if isStale cutoff c k = true then none else Cache.get c k := by
  unfold scan
  rw [get_evictKeys]
  by_cases hk : isStale cutoff c k = true
  · have hmem : k ∈ staleKeys cutoff c := by
      unfold staleKeys
      exact List.mem_filter.mpr ⟨mem_keys_of_isStale cutoff c k hk, hk⟩
    simp [hk, hmem]
  · simp [hk]

/-- The second pass on a duplicate-free key list, as a filter of the cache and
a count of the stale keys. -/
theorem evictKeys_spec (cutoff : Int) (ks : List String) :
    ∀ (a : Cache) (n : Nat), ks.Nodup →
      evictKeys cutoff ks (a, n) =
        (a.filter (fun e => !(decide (e.1 ∈ ks) && isStale cutoff a e.1)),
         n + (ks.filter (isStale cutoff a)).length) := by
  induction ks with
  | nil =>
    intro a n _
    simp [evictKeys]
  | cons x rest ih =>
    intro a n hnd
    obtain ⟨hx, hrest⟩ := List.nodup_cons.mp hnd
    rw [evictKeys_cons]
    by_cases hs : isStale cutoff a x = true
    · simp only [hs, if_true]
      rw [ih _ _ hrest]
      have hcount : rest.filter (isStale cutoff (Cache.delete a x)) =
          rest.filter (isStale cutoff a) := by
        apply List.filter_congr
        intro k hk
        exact isStale_delete_ne cutoff a x k (fun h => hx (h ▸ hk))
      have hcache : (Cache.delete a x).filter
            (fun e => !(decide (e.1 ∈ rest) && isStale cutoff (Cache.delete a x) e.1)) =
          a.filter (fun e => !(decide (e.1 ∈ x :: rest) && isStale cutoff a e.1)) := by
        have key : ∀ e : String × Record,
            (!(decide (e.1 ∈ rest) && isStale cutoff (Cache.delete a x) e.1) &&
              decide (e.1 ≠ x)) = !(decide (e.1 ∈ x :: rest) && isStale cutoff a e.1) := by
          intro e
          by_cases he : e.1 = x
          · simp [he, hs]
          · rw [isStale_delete_ne cutoff a x e.1 he]
            simp [he]
        show List.filter _ (List.filter (fun e => decide (e.1 ≠ x)) a) = _
        rw [List.filter_filter]
        exact List.filter_congr (fun e _ => key e)
      rw [hcache, hcount, List.filter_cons_of_pos hs, List.length_cons]
      congr 1
      omega
    · simp only [hs, if_false, Bool.false_eq_true]
      rw [ih _ _ hrest]
      have hcache : a.filter (fun e => !(decide (e.1 ∈ rest) && isStale cutoff a e.1)) =
          a.filter (fun e => !(decide (e.1 ∈ x :: rest) && isStale cutoff a e.1)) := by
        apply List.filter_congr
        intro e _
        by_cases he : e.1 = x
        · simp [he, hs]
        · simp [he]
      rw [hcache, List.filter_cons_of_neg hs]

/-- One scan of a cache with distinct keys keeps exactly the entries that are
not older than the cutoff and counts the others. -/
theorem scan_spec (cutoff : Int) (c : Cache) (n : Nat) (hnd : (Cache.keys c).Nodup) :
    scan cutoff (c, n) =
      (c.filter (fun e => decide (cutoff ≤ e.2.lastaccess)),
       n + (c.length - (c.filter (fun e => decide (cutoff ≤ e.2.lastaccess))).length)) := by
  unfold scan
  have hks : (staleKeys cutoff c).Nodup := hnd.filter _
  rw [evictKeys_spec cutoff _ c n hks]
  have hstale : ∀ e ∈ c, isStale cutoff c e.1 = decide (e.2.lastaccess < cutoff) := by
    intro e he
    rw [isStale_eq]
    rw [Cache.get_of_mem c hnd e he]
  have hcache : c.filter (fun e => !(decide (e.1 ∈ staleKeys cutoff c) && isStale cutoff c e.1)) =
      c.filter (fun e => decide (cutoff ≤ e.2.lastaccess)) := by
    apply List.filter_congr
    intro e he
    have hmem : e.1 ∈ Cache.keys c := List.mem_map_of_mem _ he
    by_cases h : e.2.lastaccess < cutoff
    · have h1 : isStale cutoff c e.1 = true := by rw [hstale e he]; exact decide_eq_true h
      have h2 : e.1 ∈ staleKeys cutoff c := List.mem_filter.mpr ⟨hmem, h1⟩
      have h3 : ¬ cutoff ≤ e.2.lastaccess := by omega
      simp [h1, h2, h3]
    · have h1 : isStale cutoff c e.1 = false := by rw [hstale e he]; exact decide_eq_false h
      have h3 : cutoff ≤ e.2.lastaccess := by omega
      simp [h1, h3]
  have hcount : ((staleKeys cutoff c).filter (isStale cutoff c)).length =
      c.length - (c.filter (fun e => decide (cutoff ≤ e.2.lastaccess))).length := by
    have h1 : (staleKeys cutoff c).filter (isStale cutoff c) = staleKeys cutoff c := by
      rw [List.filter_eq_self]
      intro k hk
      exact (List.mem_filter.mp hk).2
    have h2 : (staleKeys cutoff c).length =
        (c.filter (fun e => !decide (cutoff ≤ e.2.lastaccess))).length := by
      unfold staleKeys Cache.keys
      rw [List.filter_map, List.length_map]
      congr 1
      apply List.filter_congr
      intro e he
      simp only [Function.comp, hstale e he]
      by_cases h : e.2.lastaccess < cutoff
      · have h3 : ¬ cutoff ≤ e.2.lastaccess := by omega
        simp [h, h3]
      · have h3 : cutoff ≤ e.2.lastaccess := by omega
        simp [h, h3]
    have h3 := List.length_eq_length_filter_add (l := c)
      (fun e => decide (cutoff ≤ e.2.lastaccess))
    rw [h1, h2]
    omega
  rw [hcache, hcount]

/-! ## The loop of the cleaner -/

theorem keys_filter_nodup (c : Cache) (p : String × Record → Bool)
    (hnd : (Cache.keys c).Nodup) : (Cache.keys (c.filter p)).Nodup := by
  unfold Cache.keys at hnd ⊢
  exact hnd.sublist ((List.filter_sublist c).map _)

theorem rampup_val : CACHE_AGE_RAMPUP = 86400000 := by decide

theorem filter_filter_cutoff (c : Cache) (c1 c2 : Int) (h : c1 ≤ c2) :
    (c.filter (fun e => decide (c1 ≤ e.2.lastaccess))).filter
        (fun e => decide (c2 ≤ e.2.lastaccess)) =
      c.filter (fun e => decide (c2 ≤ e.2.lastaccess)) := by
  rw [List.filter_filter]
  apply List.filter_congr
  intro e _
  by_cases h2 : c2 ≤ e.2.lastaccess
  · have h1 : c1 ≤ e.2.lastaccess := le_trans h h2
    simp [h1, h2]
  · simp [h2]

theorem range_ramp (cutoff : Int) (m : Nat) :
    (List.range (m + 1 + 1)).map (fun (i : Nat) => cutoff + (i : Int) * CACHE_AGE_RAMPUP) =
      cutoff :: (List.range (m + 1)).map
        (fun (i : Nat) => cutoff + CACHE_AGE_RAMPUP + (i : Int) * CACHE_AGE_RAMPUP) := by
  rw [List.range_succ_eq_map (m + 1), List.map_cons, List.map_map]
  congr 1
  · simp
  · apply List.map_congr_left
    intro i _
    simp only [Function.comp, Nat.succ_eq_add_one, Nat.cast_add, Nat.cast_one]
    ring

/-- When the readings after the next `m` scans are above the ceiling and the
one after that is not, the loop makes `m + 1` scans and stops. -/
theorem cleanerLoop_spec (env : CleanerEnv) :
    ∀ (m fuel j : Nat) (st : State) (cutoff : Int) (n : Nat) (seen : List Int),
      (Cache.keys st.CACHE).Nodup →
      (∀ i, i < m → MAX_MEMORY_USAGE < env.rss (j + i)) →
      env.rss (j + m) ≤ MAX_MEMORY_USAGE →
      m < fuel →
      cleanerLoop env fuel j st cutoff n seen =
        some (getStats (env.memory (j + m))
                { st with CACHE := (st.CACHE.filter
                    (fun e => decide (cutoff + (m : Int) * CACHE_AGE_RAMPUP ≤ e.2.lastaccess))) },
              n + (st.CACHE.length - (st.CACHE.filter
                    (fun e => decide (cutoff + (m : Int) * CACHE_AGE_RAMPUP ≤ e.2.lastaccess))).length),
              seen ++ (List.range (m + 1)).map
                (fun (i : Nat) => cutoff + (i : Int) * CACHE_AGE_RAMPUP)) := by
  intro m
  induction m with
  | zero =>
    intro fuel j st cutoff n seen hnd _ hlow hfuel
    obtain ⟨f, rfl⟩ : ∃ f, fuel = f + 1 := ⟨fuel - 1, by omega⟩
    have hlow' : ¬ MAX_MEMORY_USAGE < env.rss j := by simpa using hlow
    rw [cleanerLoop]
    simp only [scan_spec cutoff st.CACHE n hnd, hlow', if_false, DEBUG, if_true]
    simp [List.range_succ]
  | succ m ih =>
    intro fuel j st cutoff n seen hnd hhigh hlow hfuel
    obtain ⟨f, rfl⟩ : ∃ f, fuel = f + 1 := ⟨fuel - 1, by omega⟩
    have hhigh0 : MAX_MEMORY_USAGE < env.rss j := by simpa using hhigh 0 (by omega)
    rw [cleanerLoop]
    simp only [scan_spec cutoff st.CACHE n hnd, hhigh0, if_true, DEBUG]
    rw [ih f (j + 1) _ (cutoff + CACHE_AGE_RAMPUP) _ _
      (keys_filter_nodup _ _ hnd)
      (fun i hi => by
        have := hhigh (i + 1) (by omega)
        rwa [show j + 1 + i = j + (i + 1) by omega])
      (by rwa [show j + 1 + m = j + (m + 1) by omega])
      (by omega)]
    have hle : cutoff ≤ cutoff + CACHE_AGE_RAMPUP + (m : Int) * CACHE_AGE_RAMPUP := by
      rw [rampup_val]; omega
    have hcut : cutoff + CACHE_AGE_RAMPUP + (m : Int) * CACHE_AGE_RAMPUP =
        cutoff + ((m + 1 : Nat) : Int) * CACHE_AGE_RAMPUP := by
      push_cast; ring
    have hfilt := filter_filter_cutoff st.CACHE cutoff _ hle
    have hl1 := List.length_filter_le (fun e : String × Record => decide (cutoff ≤ e.2.lastaccess))
      st.CACHE
    have hl2 := List.length_filter_le
      (fun e : String × Record =>
        decide (cutoff + CACHE_AGE_RAMPUP + (m : Int) * CACHE_AGE_RAMPUP ≤ e.2.lastaccess))
      (st.CACHE.filter (fun e => decide (cutoff ≤ e.2.lastaccess)))
    simp only [getStats] at hfilt hl2 ⊢
    rw [hfilt] at hl2 ⊢
    rw [range_ramp, ← hcut, show j + 1 + m = j + (m + 1) by omega]
    simp only [List.append_assoc, List.singleton_append, Option.some.injEq, Prod.mk.injEq,
      and_true, true_and]
    omega

/-! ## Claims about the cache cleaner -/

/-- C8 (adaptive eviction result): when the cleaner is not already running, the
keys of the cache are distinct, the memory readings after each of the first
`k - 1` scans exceed `MAX_MEMORY_USAGE` and the reading after the `k`-th scan
does not (`k ≥ 1`), `cacheCleaner` (given room for `k` scans) returns after
exactly `k` scans with the cutoffs `now - MAX_CACHE_AGE + (j-1) * CACHE_AGE_RAMPUP`
for `j = 1..k`, leaves exactly the entries of the cache whose `lastaccess` is at
least the last cutoff, returns the number of deleted entries, adds it to
`STATS.cleaner.cleaned`, adds 1 to `STATS.cleaner.runs` and leaves
`CLEANER_RUNNING` false. -/
theorem adaptive_eviction (env : CleanerEnv) (st : State) (k fuel : Nat)
    (hidle : st.CLEANER_RUNNING = false)
    (hkeys : (Cache.keys st.CACHE).Nodup)
    (hk : 1 ≤ k)
    (hhigh : ∀ j, j + 1 < k → MAX_MEMORY_USAGE < env.rss j)
    (hlow : env.rss (k - 1) ≤ MAX_MEMORY_USAGE)
    (hfuel : k ≤ fuel) :
    ∃ r, cacheCleaner env fuel st = some r ∧
      r.cutoffs = (List.range k).map
        (fun (j : Nat) => env.tCutoff - MAX_CACHE_AGE + (j : Int) * CACHE_AGE_RAMPUP) ∧
      r.state.CACHE = st.CACHE.filter (fun e =>
        decide (env.tCutoff - MAX_CACHE_AGE + ((k - 1 : Nat) : Int) * CACHE_AGE_RAMPUP
          ≤ e.2.lastaccess)) ∧
      r.result = some (st.CACHE.length - r.state.CACHE.length) ∧
      r.state.STATS.cleaner.cleaned =
        st.STATS.cleaner.cleaned + (st.CACHE.length - r.state.CACHE.length) ∧
      r.state.STATS.cleaner.runs = st.STATS.cleaner.runs + 1 ∧
      r.state.CLEANER_RUNNING = false := by
  obtain ⟨m, rfl⟩ : ∃ m, k = m + 1 := ⟨k - 1, by omega⟩
  have hspec := cleanerLoop_spec env m fuel 0
    { CACHE := st.CACHE
      STATS := { st.STATS with
        cleaner := { st.STATS.cleaner with
          runs := st.STATS.cleaner.runs + 1, last := env.tLast } }
      CLEANER_RUNNING := true }
    (env.tCutoff - MAX_CACHE_AGE) 0 [] hkeys
    (fun i hi => by simpa using hhigh i (by omega))
    (by simpa using hlow) (by omega)
  simp only [Nat.zero_add, List.nil_append] at hspec
  unfold cacheCleaner
  simp only [hidle, Bool.false_eq_true, if_false, hspec, DEBUG, if_true]
  refine ⟨_, rfl, ?_, ?_, ?_, ?_, ?_, ?_⟩
  · rfl
  · simp [getStats]
  · simp [getStats]
  · simp [getStats]
  · simp [getStats]
  · simp [getStats]

/-- Instance of C8: three entries, the readings after the first two scans are
above the ceiling, three scans are made and one entry survives. -/
theorem adaptive_eviction_witness :
    ∃ r, cacheCleaner envTwoHigh 3 stateThree = some r ∧
      r.cutoffs = (List.range 3).map
        (fun (j : Nat) => envTwoHigh.tCutoff - MAX_CACHE_AGE + (j : Int) * CACHE_AGE_RAMPUP) ∧
      r.state.CACHE = stateThree.CACHE.filter (fun e =>
        decide (envTwoHigh.tCutoff - MAX_CACHE_AGE + ((3 - 1 : Nat) : Int) * CACHE_AGE_RAMPUP
          ≤ e.2.lastaccess)) ∧
      r.result = some (stateThree.CACHE.length - r.state.CACHE.length) ∧
      r.state.STATS.cleaner.cleaned =
        stateThree.STATS.cleaner.cleaned + (stateThree.CACHE.length - r.state.CACHE.length) ∧
      r.state.STATS.cleaner.runs = stateThree.STATS.cleaner.runs + 1 ∧
      r.state.CLEANER_RUNNING = false :=
  adaptive_eviction envTwoHigh stateThree 3 3 (by decide) (by decide) (by decide)
    (by intro j hj; have hj2 : j < 2 := by omega
        interval_cases j <;> decide)
    (by decide) (by decide)

/-- What the loop does when the next `m` readings are above the ceiling and the
one after them is not: it stops after `m + 1` more scans, whatever the cache. -/
theorem cleanerLoop_stops (env : CleanerEnv) :
    ∀ (m fuel j : Nat) (st : State) (cutoff : Int) (n : Nat) (seen : List Int),
      (∀ i, i < m → MAX_MEMORY_USAGE < env.rss (j + i)) →
      env.rss (j + m) ≤ MAX_MEMORY_USAGE →
      m < fuel →
      ∃ st1 n1 seen1, cleanerLoop env fuel j st cutoff n seen = some (st1, n1, seen1) ∧
        seen1.length = seen.length + (m + 1) := by
  intro m
  induction m with
  | zero =>
    intro fuel j st cutoff n seen _ hlow hfuel
    obtain ⟨f, rfl⟩ : ∃ f, fuel = f + 1 := ⟨fuel - 1, by omega⟩
    have hlow1 : ¬ MAX_MEMORY_USAGE < env.rss j := by simpa using hlow
    rw [cleanerLoop]
    simp only [hlow1, if_false]
    exact ⟨_, _, _, rfl, by simp⟩
  | succ m ih =>
    intro fuel j st cutoff n seen hhigh hlow hfuel
    obtain ⟨f, rfl⟩ : ∃ f, fuel = f + 1 := ⟨fuel - 1, by omega⟩
    have hhigh0 : MAX_MEMORY_USAGE < env.rss j := by simpa using hhigh 0 (by omega)
    rw [cleanerLoop]
    simp only [hhigh0, if_true]
    obtain ⟨st1, n1, seen1, heq, hlen⟩ := ih f (j + 1) _ (cutoff + CACHE_AGE_RAMPUP) _
      (seen ++ [cutoff])
      (fun i hi => by
        have := hhigh (i + 1) (by omega)
        rwa [show j + 1 + i = j + (i + 1) by omega])
      (by rwa [show j + 1 + m = j + (m + 1) by omega])
      (by omega)
    refine ⟨st1, n1, seen1, heq, ?_⟩
    rw [hlen, List.length_append, List.length_singleton]
    omega

/-- While every reading is above the ceiling the loop does not stop, whatever
the cache. -/
theorem cleanerLoop_keeps_scanning (env : CleanerEnv) :
    ∀ (fuel j : Nat) (st : State) (cutoff : Int) (n : Nat) (seen : List Int),
      (∀ i, i < fuel → MAX_MEMORY_USAGE < env.rss (j + i)) →
      cleanerLoop env fuel j st cutoff n seen = none := by
  intro fuel
  induction fuel with
  | zero => intro j st cutoff n seen _; rfl
  | succ f ih =>
    intro j st cutoff n seen hhigh
    have hhigh0 : MAX_MEMORY_USAGE < env.rss j := by simpa using hhigh 0 (by omega)
    rw [cleanerLoop]
    simp only [hhigh0, if_true]
    apply ih
    intro i hi
    have := hhigh (i + 1) (by omega)
    rwa [show j + 1 + i = j + (i + 1) by omega]

/-- On the empty cache, with every reading above the ceiling, the cleaner never
returns, however many scans it is allowed. -/
theorem cleaner_never_returns_under_pressure (fuel : Nat) :
    cacheCleaner envAlwaysHigh fuel state0 = none := by
  unfold cacheCleaner
  simp only [state0, Bool.false_eq_true, if_false]
  rw [cleanerLoop_keeps_scanning envAlwaysHigh fuel 0 _ _ 0 []
    (fun i _ => by simp [envAlwaysHigh])]

/-- C9 as stated fails: on the empty cache, with the readings after the first
two scans above the ceiling, the cleaner scans three times instead of stopping
because no entries remain. -/
theorem empty_cache_is_scanned_again :
    state0.CACHE = [] ∧
      (cacheCleaner envTwoHigh 3 state0).map (fun r => r.cutoffs.length) = some 3 := by
  decide

/-- C9 as amended (cleaner termination): for every cache and every sequence of
memory readings, when the cleaner is not already running and the readings after
the first `k` scans are all above `MAX_MEMORY_USAGE`, `cacheCleaner` does not
return within `k` scans, whether or not entries remain in the cache; and when
the next reading is not above the ceiling it returns after exactly `k + 1`
scans. -/
theorem cleaner_stops_on_memory_only (env : CleanerEnv) (st : State) (k : Nat)
    (hidle : st.CLEANER_RUNNING = false)
    (hhigh : ∀ j, j < k → MAX_MEMORY_USAGE < env.rss j) :
    (∀ fuel, fuel ≤ k → cacheCleaner env fuel st = none) ∧
    (env.rss k ≤ MAX_MEMORY_USAGE → ∀ fuel, k < fuel →
      ∃ r, cacheCleaner env fuel st = some r ∧ r.cutoffs.length = k + 1) := by
  constructor
  · intro fuel hfuel
    unfold cacheCleaner
    simp only [hidle, Bool.false_eq_true, if_false]
    rw [cleanerLoop_keeps_scanning env fuel 0 _ _ 0 []
      (fun i hi => by simpa using hhigh i (by omega))]
  · intro hlow fuel hfuel
    unfold cacheCleaner
    simp only [hidle, Bool.false_eq_true, if_false]
    obtain ⟨st1, n1, seen1, heq, hlen⟩ := cleanerLoop_stops env k fuel 0
      { CACHE := st.CACHE
        STATS := { st.STATS with
          cleaner := { st.STATS.cleaner with
            runs := st.STATS.cleaner.runs + 1, last := env.tLast } }
        CLEANER_RUNNING := true }
      (env.tCutoff - MAX_CACHE_AGE) 0 []
      (fun i hi => by simpa using hhigh i hi) (by simpa using hlow) hfuel
    rw [heq]
    exact ⟨_, rfl, by simpa using hlen⟩

/-- Instance of C9 as amended: the empty cache, two readings above the ceiling. -/
theorem cleaner_stops_on_memory_only_witness :
    (∀ fuel, fuel ≤ 2 → cacheCleaner envTwoHigh fuel state0 = none) ∧
    (envTwoHigh.rss 2 ≤ MAX_MEMORY_USAGE → ∀ fuel, 2 < fuel →
      ∃ r, cacheCleaner envTwoHigh fuel state0 = some r ∧ r.cutoffs.length = 2 + 1) :=
  cleaner_stops_on_memory_only envTwoHigh state0 2 (by decide)
    (by intro j hj; interval_cases j <;> decide)

/-- C10 (cleaner mutual exclusion): when `CLEANER_RUNNING` is true,
`cacheCleaner` returns at once with no value, makes no scan, and leaves the
cache, `CLEANER_RUNNING` and every counter of `STATS` as they were. -/
theorem cleaner_mutual_exclusion (env : CleanerEnv) (fuel : Nat) (st : State)
    (hbusy : st.CLEANER_RUNNING = true) :
    cacheCleaner env fuel st = some { state := st, result := none, cutoffs := [] } := by
  unfold cacheCleaner
  simp only [hbusy, if_true]

/-- Instance of C10: a cache with three stale-able entries is left alone. -/
theorem cleaner_mutual_exclusion_witness :
    cacheCleaner envTwoHigh 3 stateBusy =
      some { state := stateBusy, result := none, cutoffs := [] } :=
  cleaner_mutual_exclusion envTwoHigh 3 stateBusy (by decide)

/-! ## Error aging -/

theorem backdate_val : ERROR_BACKDATE = 544320000 := by decide

theorem max_age_val : MAX_CACHE_AGE = 604800000 := by decide

/-- C7 (error aging): `sendResult` at time `t` stores, under every URL of the
trail, `lastaccess = t` for a 200 outcome and `lastaccess = t - 544320000`
(`t - 9 * MAX_CACHE_AGE / 10`) for any other outcome; and a scan of the cleaner
at time `t'`, with cutoff `t' - MAX_CACHE_AGE`, on any cache that still holds
that record under the URL, evicts it exactly when `t' - t > MAX_CACHE_AGE` for a
200 record and exactly when `t' - t > MAX_CACHE_AGE / 10` for a non-200 record. -/
theorem error_aging (t : Int) (code : Nat) (text : String) (trail : List String)
    (st : State) (key : String) (hkey : key ∈ trail) :
    Cache.get (sendResult t code text trail st).state.CACHE key =
        some ⟨if code = 200 then t else t - 544320000, code, text⟩ ∧
    9 * MAX_CACHE_AGE / 10 = 544320000 ∧
    ∀ (c : Cache) (n : Nat) (t' : Int),
      Cache.get c key = Cache.get (sendResult t code text trail st).state.CACHE key →
      (Cache.get (scan (t' - MAX_CACHE_AGE) (c, n)).1 key = none ↔
        (if code = 200 then t' - t > MAX_CACHE_AGE else t' - t > MAX_CACHE_AGE / 10)) := by
  have hget : Cache.get (sendResult t code text trail st).state.CACHE key =
      some ⟨if code = 200 then t else t - 544320000, code, text⟩ := by
    unfold sendResult
    simp only
    rw [get_storeTrail_of_mem _ _ _ _ hkey, backdate_val]
    by_cases h : code = 200
    · simp [h]
    · simp [h]
  refine ⟨hget, by decide, ?_⟩
  intro c n t' hsame
  rw [hget] at hsame
  rw [get_scan]
  rw [isStale_eq]
  rw [hsame, max_age_val]
  by_cases h : code = 200
  · simp only [h, if_true]
    by_cases hlt : t < t' - 604800000
    · simp [hlt]; omega
    · simp [hlt]; omega
  · simp only [h, if_false]
    by_cases hlt : t - 544320000 < t' - 604800000
    · simp [hlt]; omega
    · simp [hlt]; omega

/-- Instance of C7: a 404 outcome written at time 1000 under the trail A, B. -/
theorem error_aging_witness :
    Cache.get (sendResult 1000 404 "http://b/" ["http://a/", "http://b/"] state0).state.CACHE
        "http://a/" =
        some ⟨if 404 = 200 then 1000 else 1000 - 544320000, 404, "http://b/"⟩ ∧
    9 * MAX_CACHE_AGE / 10 = 544320000 ∧
    ∀ (c : Cache) (n : Nat) (t' : Int),
      Cache.get c "http://a/" =
        Cache.get (sendResult 1000 404 "http://b/" ["http://a/", "http://b/"] state0).state.CACHE
          "http://a/" →
      (Cache.get (scan (t' - MAX_CACHE_AGE) (c, n)).1 "http://a/" = none ↔
        (if 404 = 200 then t' - 1000 > MAX_CACHE_AGE else t' - 1000 > MAX_CACHE_AGE / 10)) :=
  error_aging 1000 404 "http://b/" ["http://a/", "http://b/"] state0 "http://a/" (by decide)

end Furl
